import Mathlib

/-!
A verification development for the wallet risk scoring pipeline
(`wallet_risk_scoring.py`): fetch-with-retry, feature extraction,
normalization, scoring, and the batch loop.

Numeric model: Python floats are modelled exactly, by rationals where the
code only does field arithmetic and comparisons, and by real numbers where
the portfolio-size normalizer takes a base-10 logarithm.  Python `round`
(banker's rounding, ties to even) is modelled by `pyRound`.
-/

namespace WalletRiskScoring

/-! ## Data model

A token-balance item as seen by `extract_features`: its `quote` field is
either absent/None, present but not convertible by `float(...)`, or a
number; an item that is not even a mapping (so that `item.get` raises and
the inner `except` skips it) is `malformedItem`. -/

inductive QuoteVal where
  | null
  | nonNumeric
  | num (q : ℚ)
deriving DecidableEq, Repr

inductive BalanceItem where
  | malformedItem
  | item (quote : QuoteVal) (symbol : String)
deriving DecidableEq, Repr

/-- The payload handed to `extract_features`.  `ok none` is a response in
which `data`/`items` is missing (`data.get("data", {}).get("items", [])`
defaults to the empty list); `malformed` is a payload whose structure makes
that access raise, which the outer `except` of `extract_features` absorbs. -/
inductive Payload where
  | ok (items : Option (List BalanceItem))
  | malformed
deriving DecidableEq, Repr

structure PortfolioFeatures where
  total_usd : ℚ
  num_assets : ℤ
  largest_holding_usd : ℚ
  portfolio_concentration : ℚ
deriving DecidableEq, Repr

/-! ## Feature extraction (`extract_features`) -/

/-- The value of `float(item.get("quote"))` when it succeeds:
`none` when the quote is missing/None or not parseable as a number. -/
def parseQuote : BalanceItem → Option ℚ
  | .malformedItem => none
  | .item .null _ => none
  | .item .nonNumeric _ => none
  | .item (.num q) _ => some q

/-- The accumulator loop of `extract_features` over the item list:
state is `(total_usd, num_assets, largest_holding_usd)`. -/
def extractLoop : List BalanceItem → ℚ × ℤ × ℚ → ℚ × ℤ × ℚ
  | [], acc => acc
  | it :: rest, acc =>
    match parseQuote it with
    | none => extractLoop rest acc
    | some q =>
      if 0 < q then extractLoop rest (acc.1 + q, acc.2.1 + 1, max acc.2.2 q)
      else extractLoop rest acc

/-- The all-zero feature record `extract_features` initializes and also
returns on structural failure. -/
def zeroFeatures : PortfolioFeatures :=
  { total_usd := 0, num_assets := 0, largest_holding_usd := 0, portfolio_concentration := 0 }

/-- `extract_features`: accumulate positive parsed quotes, then derive the
concentration, guarded against division by zero; a malformed payload is
absorbed into the all-zero record. -/
def extract_features : Payload → PortfolioFeatures
  | .malformed => zeroFeatures
  | .ok itemsOpt =>
    let items := itemsOpt.getD []
    let acc := extractLoop items (0, 0, 0)
    { total_usd := acc.1
      num_assets := acc.2.1
      largest_holding_usd := acc.2.2
      portfolio_concentration := if 0 < acc.1 then acc.2.2 / acc.1 else 0 }

/-! ## Normalizers -/

/-- `normalize_portfolio_size`: log10-scaled interpolation between $100 and
$1,000,000, clamped to [0,1]; nonpositive values map to 0. -/
noncomputable def normalize_portfolio_size (usd_value : ℝ) : ℝ :=
  if usd_value ≤ 0 then 0
  else
    let log_value := Real.logb 10 (max usd_value 1)
    let log_min := Real.logb 10 100
    let log_max := Real.logb 10 1000000
    let normalized := (log_value - log_min) / (log_max - log_min)
    min (max normalized 0) 1

/-- `normalize_diversification`: linear from 1 asset (0) to 15 assets (1). -/
def normalize_diversification (num_assets : ℤ) : ℚ :=
  if num_assets ≤ 1 then 0
  else if 15 ≤ num_assets then 1
  else ((num_assets : ℚ) - 1) / 14

/-- `normalize_concentration`: inverted linear; ≥ 1 maps to 0, ≤ 0.1 maps
to 1, otherwise `1 - concentration`. -/
def normalize_concentration (concentration : ℚ) : ℚ :=
  if 1 ≤ concentration then 0
  else if concentration ≤ 1/10 then 1
  else 1 - concentration

/-! ## Scorer (`compute_score`) -/

open Classical in
/-- Python `round`: nearest integer, ties to the even integer. -/
noncomputable def pyRound (x : ℝ) : ℤ :=
  if Int.fract x < 1/2 then ⌊x⌋
  else if 1/2 < Int.fract x then ⌊x⌋ + 1
  else if Even ⌊x⌋ then ⌊x⌋ else ⌊x⌋ + 1

/-- `compute_score`: weighted sum of the three normalized factors, inverted
onto a 0–1000 scale, with the empty-portfolio override to 800 and a final
clamp to [0, 1000]. -/
noncomputable def compute_score (features : PortfolioFeatures) : ℤ :=
  let size_score := normalize_portfolio_size (features.total_usd : ℝ)
  let diversity_score := normalize_diversification features.num_assets
  let concentration_score := normalize_concentration features.portfolio_concentration
  let weighted_score :=
    size_score * 0.35 + (diversity_score : ℝ) * 0.35 + (concentration_score : ℝ) * 0.30
  let rounded := pyRound ((1 - weighted_score) * 1000)
  let final_score := if features.total_usd = 0 then 800 else rounded
  max 0 (min 1000 final_score)

/-! ## Fetcher (`fetch_wallet_data`)

One attempt's observable outcome: HTTP 429, an exception (timeout,
request-level error, HTTP error status from `raise_for_status`, or any
other exception), or a parsed JSON body.  A parsed body is falsy, truthy
with an `errors` key, truthy with a `data` key (success, returning the
payload), or truthy with neither. -/

inductive ApiJson where
  | falsy
  | withErrors
  | withData (p : Payload)
  | noData
deriving DecidableEq, Repr

inductive AttemptOutcome where
  | rateLimited
  | httpError
  | timeout
  | requestError
  | unexpectedError
  | response (json : ApiJson)
deriving DecidableEq, Repr

inductive SleepEvent where
  | rateLimit (seconds : ℕ)
  | backoff (seconds : ℕ)
deriving DecidableEq, Repr

/-- The shared exponential-backoff step at the bottom of the retry loop:
executed only when the current attempt is not the last one. -/
def backoffAfter (retries attempt : ℕ) (rest : Option Payload × List SleepEvent) :
    Option Payload × List SleepEvent :=
  if attempt < retries - 1 then (rest.1, .backoff (min (2 ^ attempt) 30) :: rest.2)
  else rest

/-- The retry loop of `fetch_wallet_data`, driven by a trace assigning each
attempt index its outcome.  `remaining` is the number of loop iterations
left (`retries - attempt`); the result pairs the returned payload (if any)
with the list of sleeps performed, in order. -/
def fetchLoop (outcomes : ℕ → AttemptOutcome) (retries : ℕ) :
    ℕ → ℕ → Option Payload × List SleepEvent
  | 0, _ => (none, [])
  | remaining + 1, attempt =>
    match outcomes attempt with
    | .rateLimited =>
      let rest := fetchLoop outcomes retries remaining (attempt + 1)
      (rest.1, .rateLimit (10 * (attempt + 1)) :: rest.2)
    | .response .falsy => fetchLoop outcomes retries remaining (attempt + 1)
    | .response .withErrors => fetchLoop outcomes retries remaining (attempt + 1)
    | .response (.withData p) => (some p, [])
    | .response .noData =>
      backoffAfter retries attempt (fetchLoop outcomes retries remaining (attempt + 1))
    | .timeout =>
      backoffAfter retries attempt (fetchLoop outcomes retries remaining (attempt + 1))
    | .requestError =>
      backoffAfter retries attempt (fetchLoop outcomes retries remaining (attempt + 1))
    | .httpError =>
      backoffAfter retries attempt (fetchLoop outcomes retries remaining (attempt + 1))
    | .unexpectedError =>
      backoffAfter retries attempt (fetchLoop outcomes retries remaining (attempt + 1))

/-- `fetch_wallet_data`: run the retry loop from attempt 0. -/
def fetch_wallet_data (outcomes : ℕ → AttemptOutcome) (retries : ℕ) :
    Option Payload × List SleepEvent :=
  fetchLoop outcomes retries retries 0

/-- The failure classes that reach the shared exponential-backoff step:
exceptions of any kind, and a truthy response that has no `errors` key but
also no `data` key.  (429 sleeps its own rate-limit wait instead, and a
falsy body or a body with an `errors` key hits `continue`, retrying with
no sleep at all.) -/
def backoffClass : AttemptOutcome → Bool
  | .timeout => true
  | .requestError => true
  | .httpError => true
  | .unexpectedError => true
  | .response .noData => true
  | _ => false

/-! ## Batch runner (the per-wallet loop of `main`) -/

structure WalletResult where
  wallet_id : String
  score : ℤ
deriving DecidableEq, Repr

structure FailureRecord where
  wallet_id : String
  reason : String
deriving DecidableEq, Repr

/-- What processing one address observably does: the fetch returns a
payload, the fetch returns None, or an exception escapes the per-wallet
try block. -/
inductive ProcessOutcome where
  | fetched (payload : Payload)
  | fetchFailed
  | raised (msg : String)

/-- The per-wallet loop of `main`: one `WalletResult` is appended for every
address; a failed fetch contributes `("Failed to fetch data", score 0)`, an
escaped exception contributes its message and score 0, and a fetched
payload is scored through `extract_features` and `compute_score`. -/
noncomputable def processBatch (behavior : String → ProcessOutcome) :
    List String → List WalletResult × List FailureRecord
  | [] => ([], [])
  | addr :: rest =>
    let prev := processBatch behavior rest
    match behavior addr with
    | .fetchFailed =>
      (⟨addr, 0⟩ :: prev.1, ⟨addr, "Failed to fetch data"⟩ :: prev.2)
    | .fetched p =>
      (⟨addr, compute_score (extract_features p)⟩ :: prev.1, prev.2)
    | .raised msg =>
      (⟨addr, 0⟩ :: prev.1, ⟨addr, msg⟩ :: prev.2)

/-! ## Characterization of feature extraction -/

/-- The quote of one item when it parses as a number and is strictly
positive: exactly the values `extract_features` accumulates. -/
def positiveQuote (it : BalanceItem) : Option ℚ :=
  match parseQuote it with
  | none => none
  | some q => if 0 < q then some q else none

/-- The positive parseable quotes of a payload, in item order. -/
def positiveQuotes : Payload → List ℚ
  | .malformed => []
  | .ok itemsOpt => (itemsOpt.getD []).filterMap positiveQuote

lemma pos_of_positiveQuote {it : BalanceItem} {q : ℚ}
    (h : positiveQuote it = some q) : 0 < q := by
  unfold positiveQuote at h
  cases hp : parseQuote it with
  | none => rw [hp] at h; exact absurd h (by simp)
  | some x =>
    rw [hp] at h
    by_cases h0 : 0 < x
    · simp only [h0, if_true, Option.some.injEq] at h
      exact lt_of_lt_of_eq h0 h
    · simp [h0] at h

lemma pos_of_mem_positiveQuotes {p : Payload} {q : ℚ}
    (hq : q ∈ positiveQuotes p) : 0 < q := by
  cases p with
  | malformed => exact absurd hq (by simp [positiveQuotes])
  | ok itemsOpt =>
    rcases List.mem_filterMap.mp hq with ⟨it, _, hit⟩
    exact pos_of_positiveQuote hit

lemma extractLoop_eq (items : List BalanceItem) (total : ℚ) (num : ℤ) (largest : ℚ) :
    extractLoop items (total, num, largest) =
      (total + (items.filterMap positiveQuote).sum,
       num + (items.filterMap positiveQuote).length,
       (items.filterMap positiveQuote).foldl max largest) := by
  induction items generalizing total num largest with
  | nil => simp [extractLoop]
  | cons it rest ih =>
    cases hq : parseQuote it with
    | none =>
      have hpq : positiveQuote it = none := by simp [positiveQuote, hq]
      simp [extractLoop, hq, List.filterMap_cons, hpq, ih]
    | some q =>
      by_cases h0 : 0 < q
      · have hpq : positiveQuote it = some q := by simp [positiveQuote, hq, h0]
        simp only [extractLoop, hq, if_pos h0, List.filterMap_cons, hpq, ih,
          List.sum_cons, List.length_cons, List.foldl_cons]
        refine congrArg₂ Prod.mk (by ring) (congrArg₂ Prod.mk (by push_cast; ring) rfl)
      · have hpq : positiveQuote it = none := by simp [positiveQuote, hq, h0]
        simp [extractLoop, hq, h0, List.filterMap_cons, hpq, ih]

lemma extract_features_eq (p : Payload) :
    extract_features p =
      { total_usd := (positiveQuotes p).sum
        num_assets := ((positiveQuotes p).length : ℤ)
        largest_holding_usd := (positiveQuotes p).foldl max 0
        portfolio_concentration :=
          if 0 < (positiveQuotes p).sum then
            (positiveQuotes p).foldl max 0 / (positiveQuotes p).sum
          else 0 } := by
  cases p with
  | malformed => simp [extract_features, positiveQuotes, zeroFeatures]
  | ok itemsOpt =>
    simp only [extract_features, extractLoop_eq, positiveQuotes, zero_add,
      PortfolioFeatures.mk.injEq]

/-! Elementary facts about `List.foldl max` (the running maximum). -/

lemma foldl_max_mono_init (l : List ℚ) {a b : ℚ} (h : a ≤ b) :
    l.foldl max a ≤ l.foldl max b := by
  induction l generalizing a b with
  | nil => exact h
  | cons x xs ih => exact ih (max_le_max h le_rfl)

lemma foldl_max_init_le (l : List ℚ) (a : ℚ) : a ≤ l.foldl max a := by
  induction l generalizing a with
  | nil => exact le_rfl
  | cons x xs ih => exact le_trans (le_max_left a x) (ih (max a x))

lemma le_foldl_max_of_mem {l : List ℚ} {x : ℚ} (hx : x ∈ l) (a : ℚ) :
    x ≤ l.foldl max a := by
  induction l generalizing a with
  | nil => exact absurd hx (List.not_mem_nil x)
  | cons y ys ih =>
    rcases List.mem_cons.mp hx with h | h
    · subst h
      exact le_trans (le_max_right a x) (foldl_max_init_le ys (max a x))
    · exact ih h (max a y)

lemma foldl_max_eq_init_or_mem (l : List ℚ) (a : ℚ) :
    l.foldl max a = a ∨ l.foldl max a ∈ l := by
  induction l generalizing a with
  | nil => exact Or.inl rfl
  | cons x xs ih =>
    rcases ih (max a x) with h | h
    · rcases max_choice a x with hm | hm
      · exact Or.inl (by rw [List.foldl_cons, h, hm])
      · exact Or.inr (by rw [List.foldl_cons, h, hm]; exact List.mem_cons_self x xs)
    · exact Or.inr (List.mem_cons_of_mem x h)

lemma foldl_max_zero_le_sum {l : List ℚ} (hpos : ∀ x ∈ l, 0 < x) :
    l.foldl max 0 ≤ l.sum := by
  rcases foldl_max_eq_init_or_mem l 0 with h | h
  · rw [h]
    exact List.sum_nonneg fun x hx => le_of_lt (hpos x hx)
  · exact List.single_le_sum (fun x hx => le_of_lt (hpos x hx)) _ h

lemma sum_pos_of_ne_nil {l : List ℚ} (hpos : ∀ x ∈ l, 0 < x) (hne : l ≠ []) :
    0 < l.sum := by
  cases l with
  | nil => exact absurd rfl hne
  | cons x xs =>
    rw [List.sum_cons]
    exact add_pos_of_pos_of_nonneg (hpos x (List.mem_cons_self x xs))
      (List.sum_nonneg fun y hy => le_of_lt (hpos y (List.mem_cons_of_mem x hy)))

lemma sum_eq_zero_iff_nil {l : List ℚ} (hpos : ∀ x ∈ l, 0 < x) :
    l.sum = 0 ↔ l = [] := by
  constructor
  · intro h0
    by_contra hne
    exact absurd h0 (ne_of_gt (sum_pos_of_ne_nil hpos hne))
  · intro h
    rw [h, List.sum_nil]

lemma foldl_max_zero_pos_iff {l : List ℚ} (hpos : ∀ x ∈ l, 0 < x) :
    0 < l.foldl max 0 ↔ l ≠ [] := by
  constructor
  · intro h hnil
    rw [hnil] at h
    exact absurd h (by norm_num [List.foldl_nil])
  · intro hne
    cases l with
    | nil => exact absurd rfl hne
    | cons x xs =>
      exact lt_of_lt_of_le (hpos x (List.mem_cons_self x xs))
        (le_foldl_max_of_mem (List.mem_cons_self x xs) 0)

/-! ## Scorer facts -/

lemma compute_score_total_zero (f : PortfolioFeatures) (h : f.total_usd = 0) :
    compute_score f = 800 := by
  simp [compute_score, h]

/-- C2: for every PortfolioFeatures record with `total_usd = 0`,
`compute_score` returns exactly 800, regardless of the values of
`num_assets`, `largest_holding_usd` and `portfolio_concentration`. -/
theorem compute_score_of_zero_total (n : ℤ) (l c : ℚ) :
    compute_score { total_usd := 0, num_assets := n, largest_holding_usd := l,
                    portfolio_concentration := c } = 800 :=
  compute_score_total_zero _ rfl

/-- C3: for every PortfolioFeatures record, including adversarial values of
`num_assets` and arbitrary concentrations, `compute_score` returns an
integer in the inclusive range [0, 1000]. -/
theorem compute_score_bounds (features : PortfolioFeatures) :
    0 ≤ compute_score features ∧ compute_score features ≤ 1000 := by
  unfold compute_score
  exact ⟨le_max_left 0 _, max_le (by norm_num) (min_le_left 1000 _)⟩

/-- C6: for every payload, the extracted features satisfy the
PortfolioFeatures invariant: `total_usd` is the sum of the positive
parseable quotes, `num_assets` their count, `largest_holding_usd` their
maximum (an upper bound that is 0 when there are none and one of them
otherwise), hence `largest_holding_usd ≤ total_usd`, and
`portfolio_concentration` is `largest_holding_usd / total_usd` when
`total_usd > 0` and 0 otherwise. -/
theorem extract_features_invariant (p : Payload) :
    (extract_features p).total_usd = (positiveQuotes p).sum ∧
    (extract_features p).num_assets = ((positiveQuotes p).length : ℤ) ∧
    (∀ q ∈ positiveQuotes p, q ≤ (extract_features p).largest_holding_usd) ∧
    (positiveQuotes p = [] → (extract_features p).largest_holding_usd = 0) ∧
    (positiveQuotes p ≠ [] → (extract_features p).largest_holding_usd ∈ positiveQuotes p) ∧
    (extract_features p).largest_holding_usd ≤ (extract_features p).total_usd ∧
    (extract_features p).portfolio_concentration =
      (if 0 < (extract_features p).total_usd then
        (extract_features p).largest_holding_usd / (extract_features p).total_usd
      else 0) := by
  have hpos : ∀ x ∈ positiveQuotes p, 0 < x := fun x hx => pos_of_mem_positiveQuotes hx
  rw [extract_features_eq p]
  refine ⟨rfl, rfl, ?_, ?_, ?_, ?_, rfl⟩
  · exact fun q hq => le_foldl_max_of_mem hq 0
  · intro h
    rw [h, List.foldl_nil]
  · intro hne
    rcases foldl_max_eq_init_or_mem (positiveQuotes p) 0 with h | h
    · exfalso
      cases hl : positiveQuotes p with
      | nil => exact hne hl
      | cons x xs =>
        have hx : x ∈ positiveQuotes p := by rw [hl]; exact List.mem_cons_self x xs
        have := le_foldl_max_of_mem hx 0
        rw [h] at this
        exact absurd (lt_of_lt_of_le (hpos x hx) this) (lt_irrefl 0)
    · exact h
  · exact foldl_max_zero_le_sum hpos

/-- C7: `extract_features` is total and never raises: a payload whose
balance-item list is missing or empty yields the all-zero feature record,
an item whose structure makes per-item processing fail is skipped, and a
payload whose structure makes extraction fail altogether is absorbed into
the all-zero feature record (totality itself is by construction in this
embedding). -/
theorem extract_features_absorbs_bad_payloads :
    extract_features (Payload.ok none) = zeroFeatures ∧
    extract_features (Payload.ok (some [])) = zeroFeatures ∧
    extract_features (Payload.ok (some [BalanceItem.malformedItem])) = zeroFeatures ∧
    extract_features Payload.malformed = zeroFeatures := by
  refine ⟨?_, ?_, ?_, rfl⟩ <;> decide

/-- C10: for every payload, in the extracted features `total_usd > 0` iff
`num_assets > 0` iff `largest_holding_usd > 0`; consequently the
`total_usd == 0` override of `compute_score` (forcing the score to 800)
fires exactly for payloads containing no item with a positive parseable
quote. -/
theorem extract_features_positivity (p : Payload) :
    (0 < (extract_features p).total_usd ↔ 0 < (extract_features p).num_assets) ∧
    (0 < (extract_features p).num_assets ↔ 0 < (extract_features p).largest_holding_usd) ∧
    ((extract_features p).total_usd = 0 ↔ positiveQuotes p = []) ∧
    ((extract_features p).total_usd = 0 → compute_score (extract_features p) = 800) := by
  have hpos : ∀ x ∈ positiveQuotes p, 0 < x := fun x hx => pos_of_mem_positiveQuotes hx
  have hsum : 0 < (positiveQuotes p).sum ↔ positiveQuotes p ≠ [] := by
    constructor
    · intro h hnil
      rw [hnil, List.sum_nil] at h
      exact absurd h (lt_irrefl 0)
    · exact sum_pos_of_ne_nil hpos
  have hlen : 0 < ((positiveQuotes p).length : ℤ) ↔ positiveQuotes p ≠ [] := by
    rw [Int.natCast_pos, List.length_pos]
  have hmax : 0 < (positiveQuotes p).foldl max 0 ↔ positiveQuotes p ≠ [] :=
    foldl_max_zero_pos_iff hpos
  refine ⟨?_, ?_, ?_, fun h => compute_score_total_zero _ h⟩
  · rw [extract_features_eq p]
    exact hsum.trans hlen.symm
  · rw [extract_features_eq p]
    exact hlen.trans hmax.symm
  · rw [extract_features_eq p]
    exact (sum_eq_zero_iff_nil hpos)

/-! ## Normalizer facts -/

lemma logb_ten_hundred : Real.logb 10 100 = 2 := by
  rw [show (100 : ℝ) = 10 ^ (2 : ℕ) by norm_num, Real.logb_pow,
    Real.logb_self_eq_one (by norm_num)]
  norm_num

lemma logb_ten_million : Real.logb 10 1000000 = 6 := by
  rw [show (1000000 : ℝ) = 10 ^ (6 : ℕ) by norm_num, Real.logb_pow,
    Real.logb_self_eq_one (by norm_num)]
  norm_num

lemma normalize_portfolio_size_of_nonpos {x : ℝ} (h : x ≤ 0) :
    normalize_portfolio_size x = 0 := by
  unfold normalize_portfolio_size
  rw [if_pos h]

lemma normalize_portfolio_size_nonneg (x : ℝ) : 0 ≤ normalize_portfolio_size x := by
  unfold normalize_portfolio_size
  split
  · exact le_rfl
  · exact le_min (le_max_right _ 0) zero_le_one

lemma normalize_portfolio_size_of_ge {x : ℝ} (h : 1000000 ≤ x) :
    normalize_portfolio_size x = 1 := by
  have hx0 : ¬ x ≤ 0 := not_le.mpr (lt_of_lt_of_le (by norm_num) h)
  unfold normalize_portfolio_size
  rw [if_neg hx0]
  rw [max_eq_left (le_trans (by norm_num) h), logb_ten_hundred, logb_ten_million]
  dsimp only
  have hL : (6 : ℝ) ≤ Real.logb 10 x := by
    rw [show (6 : ℝ) = Real.logb 10 1000000 from logb_ten_million.symm]
    exact Real.logb_le_logb_of_le (by norm_num) (by norm_num) h
  have h41 : (1 : ℝ) ≤ (Real.logb 10 x - 2) / (6 - 2) := by
    rw [one_le_div (by norm_num : (0:ℝ) < 6 - 2)]
    linarith
  rw [max_eq_left (le_trans zero_le_one h41), min_eq_right h41]

lemma normalize_portfolio_size_mono : Monotone normalize_portfolio_size := by
  intro a b hab
  by_cases ha : a ≤ 0
  · rw [normalize_portfolio_size_of_nonpos ha]
    exact normalize_portfolio_size_nonneg b
  · have hb : ¬ b ≤ 0 := fun h => ha (le_trans hab h)
    unfold normalize_portfolio_size
    rw [if_neg ha, if_neg hb]
    dsimp only
    refine min_le_min (max_le_max ?_ le_rfl) le_rfl
    have hden : (0 : ℝ) < Real.logb 10 1000000 - Real.logb 10 100 := by
      rw [logb_ten_hundred, logb_ten_million]
      norm_num
    rw [div_le_div_iff_of_pos_right hden]
    refine sub_le_sub_right ?_ _
    exact Real.logb_le_logb_of_le (by norm_num)
      (lt_of_lt_of_le zero_lt_one (le_max_right a 1)) (max_le_max hab le_rfl)

/-- C8: `normalize_portfolio_size` returns 0 for every nonpositive input,
returns 1 for every input of at least 1,000,000, and is monotonically
non-decreasing over the whole input domain. -/
theorem normalize_portfolio_size_props :
    (∀ x : ℝ, x ≤ 0 → normalize_portfolio_size x = 0) ∧
    (∀ x : ℝ, 1000000 ≤ x → normalize_portfolio_size x = 1) ∧
    Monotone normalize_portfolio_size :=
  ⟨fun _ h => normalize_portfolio_size_of_nonpos h,
   fun _ h => normalize_portfolio_size_of_ge h,
   normalize_portfolio_size_mono⟩

/-! ## End-to-end scenario -/

lemma pyRound_intCast (n : ℤ) : pyRound ((n : ℝ)) = n := by
  unfold pyRound
  rw [Int.fract_intCast]
  norm_num

/-- The payload of end-to-end scenario 1: two holdings of 500,000 each. -/
def scenarioPayload : Payload :=
  Payload.ok (some [BalanceItem.item (QuoteVal.num 500000) "ETH",
                    BalanceItem.item (QuoteVal.num 500000) "USDC"])

/-- C9: on the payload with items `{quote: 500000, symbol: "ETH"}` and
`{quote: 500000, symbol: "USDC"}`, `extract_features` returns total 1,000,000,
2 assets, largest holding 500,000 and concentration 0.5, and `compute_score`
of those features is exactly 475 (size 1, diversity 1/14, concentration 0.5,
weighted 0.525, round((1-0.525)*1000) = 475). -/
theorem scenario_even_million :
    extract_features scenarioPayload =
      { total_usd := 1000000, num_assets := 2, largest_holding_usd := 500000,
        portfolio_concentration := 1/2 } ∧
    compute_score (extract_features scenarioPayload) = 475 := by
  have hq : ∀ s : String, positiveQuote (BalanceItem.item (QuoteVal.num 500000) s)
      = some 500000 := by
    intro s
    simp only [positiveQuote, parseQuote]
    rw [if_pos (by norm_num : (0:ℚ) < 500000)]
  have hpq : positiveQuotes scenarioPayload = [500000, 500000] := by
    simp [positiveQuotes, scenarioPayload, List.filterMap_cons, hq]
  have hfold : List.foldl max (0 : ℚ) [500000, 500000] = 500000 := by
    rw [List.foldl_cons, List.foldl_cons, List.foldl_nil,
      max_eq_right (by norm_num : (0:ℚ) ≤ 500000), max_self]
  have hex : extract_features scenarioPayload =
      { total_usd := 1000000, num_assets := 2, largest_holding_usd := 500000,
        portfolio_concentration := 1/2 } := by
    rw [extract_features_eq, hpq]
    simp only [PortfolioFeatures.mk.injEq]
    refine ⟨by norm_num, by norm_num, hfold, ?_⟩
    rw [hfold]
    norm_num
  refine ⟨hex, ?_⟩
  rw [hex]
  have hsize : normalize_portfolio_size (((1000000 : ℚ) : ℝ)) = 1 := by
    rw [show (((1000000 : ℚ) : ℝ)) = (1000000 : ℝ) by norm_num]
    exact normalize_portfolio_size_of_ge le_rfl
  have hdiv : normalize_diversification 2 = 1/14 := by
    norm_num [normalize_diversification]
  have hconc : normalize_concentration (1/2) = 1/2 := by
    norm_num [normalize_concentration]
  simp only [compute_score]
  rw [hsize, hdiv, hconc]
  rw [if_neg (by norm_num : ¬ (1000000 : ℚ) = 0)]
  rw [show (1 - ((1 : ℝ) * 0.35 + ((1/14 : ℚ) : ℝ) * 0.35 + ((1/2 : ℚ) : ℝ) * 0.30)) * 1000
        = ((475 : ℤ) : ℝ) by push_cast; norm_num]
  rw [pyRound_intCast]
  norm_num

/-! ## Fetcher sleep discipline -/

/-- The sleep schedule the retry loop is specified to follow (after the
correction for the `continue`d cases): a success ends the run with no
further sleeps; HTTP 429 sleeps `10 * (attempt + 1)`; a falsy body or a
body with an `errors` key retries immediately with no sleep; every other
retryable failure (timeout, request-level error, HTTP error status,
unexpected exception, truthy body without a `data` key) sleeps
`min(2 ^ attempt, 30)` unless it was the final attempt. -/
def claimedSleeps (outcomes : ℕ → AttemptOutcome) (retries : ℕ) :
    ℕ → ℕ → List SleepEvent
  | 0, _ => []
  | remaining + 1, attempt =>
    match outcomes attempt with
    | .response (.withData _) => []
    | .rateLimited =>
      .rateLimit (10 * (attempt + 1)) :: claimedSleeps outcomes retries remaining (attempt + 1)
    | .response .falsy => claimedSleeps outcomes retries remaining (attempt + 1)
    | .response .withErrors => claimedSleeps outcomes retries remaining (attempt + 1)
    | _ =>
      (if attempt < retries - 1 then [SleepEvent.backoff (min (2 ^ attempt) 30)] else [])
        ++ claimedSleeps outcomes retries remaining (attempt + 1)

lemma fetchLoop_sleeps (outcomes : ℕ → AttemptOutcome) (retries : ℕ)
    (remaining attempt : ℕ) :
    (fetchLoop outcomes retries remaining attempt).2 =
      claimedSleeps outcomes retries remaining attempt := by
  induction remaining generalizing attempt with
  | zero => rfl
  | succ m ih =>
    cases h : outcomes attempt with
    | rateLimited => simp [fetchLoop, claimedSleeps, h, ih]
    | httpError =>
      by_cases hc : attempt < retries - 1 <;>
        simp [fetchLoop, claimedSleeps, backoffAfter, h, hc, ih]
    | timeout =>
      by_cases hc : attempt < retries - 1 <;>
        simp [fetchLoop, claimedSleeps, backoffAfter, h, hc, ih]
    | requestError =>
      by_cases hc : attempt < retries - 1 <;>
        simp [fetchLoop, claimedSleeps, backoffAfter, h, hc, ih]
    | unexpectedError =>
      by_cases hc : attempt < retries - 1 <;>
        simp [fetchLoop, claimedSleeps, backoffAfter, h, hc, ih]
    | response js =>
      cases js with
      | falsy => simp [fetchLoop, claimedSleeps, h, ih]
      | withErrors => simp [fetchLoop, claimedSleeps, h, ih]
      | withData p => simp [fetchLoop, claimedSleeps, h]
      | noData =>
        by_cases hc : attempt < retries - 1 <;>
          simp [fetchLoop, claimedSleeps, backoffAfter, h, hc, ih]

/-- C5 (amended): the sleeps performed by `fetch_wallet_data` are exactly
those of `claimedSleeps`: every retryable failure other than HTTP 429 and
other than a parsed body that is falsy or contains an `errors` key (both of
which `continue` to the next attempt with no sleep) is followed by a
backoff sleep of `min(2 ^ attempt_index, 30)` seconds before the next
attempt, skipped after the final attempt; HTTP 429 sleeps
`10 * (attempt_index + 1)` instead. -/
theorem fetch_wallet_data_sleep_discipline (outcomes : ℕ → AttemptOutcome) (retries : ℕ) :
    (fetch_wallet_data outcomes retries).2 = claimedSleeps outcomes retries retries 0 :=
  fetchLoop_sleeps outcomes retries retries 0

/-- C5 (counterexample to the claim as stated): a run of three attempts
whose responses all parse but contain an `errors` key — non-429 retryable
failures — performs no sleep at all, while the claim requires a backoff
sleep of `min(2^0, 30) = 1` second after the first attempt. -/
theorem fetch_errors_key_skips_backoff :
    (fetch_wallet_data (fun _ => AttemptOutcome.response ApiJson.withErrors) 3).2 = [] ∧
    SleepEvent.backoff 1 ∉
      (fetch_wallet_data (fun _ => AttemptOutcome.response ApiJson.withErrors) 3).2 := by
  refine ⟨rfl, ?_⟩
  rw [show (fetch_wallet_data (fun _ => AttemptOutcome.response ApiJson.withErrors) 3).2
      = [] from rfl]
  exact List.not_mem_nil _

/-! ## Batch runner -/

/-- C1: for every per-address behavior (any mix of successes and failures)
and every input list, the batch loop produces exactly one `WalletResult`
per input address, in the same order as the input addresses. -/
theorem processBatch_one_result_per_address (behavior : String → ProcessOutcome)
    (addrs : List String) :
    (processBatch behavior addrs).1.length = addrs.length ∧
    (processBatch behavior addrs).1.map WalletResult.wallet_id = addrs := by
  induction addrs with
  | nil => exact ⟨rfl, rfl⟩
  | cons addr rest ih =>
    rcases ih with ⟨h1, h2⟩
    cases hb : behavior addr <;> simp [processBatch, hb, h1, h2]

/-- C4: whenever the fetcher returns None for the address at the head of
the remaining batch, the loop appends a `FailureRecord` with reason exactly
"Failed to fetch data" and a `WalletResult` with score 0 for that address,
and then processes the remaining addresses exactly as it otherwise would:
one wallet's failure never aborts the batch. -/
theorem processBatch_fetch_failure (behavior : String → ProcessOutcome)
    (addr : String) (rest : List String)
    (h : behavior addr = ProcessOutcome.fetchFailed) :
    processBatch behavior (addr :: rest) =
      (⟨addr, 0⟩ :: (processBatch behavior rest).1,
       ⟨addr, "Failed to fetch data"⟩ :: (processBatch behavior rest).2) := by
  simp [processBatch, h]

/-- A batch behavior in which every fetch fails. -/
def allFetchFail : String → ProcessOutcome := fun _ => ProcessOutcome.fetchFailed

/-- Witness for C4 at a concrete two-address batch whose first fetch
returns None. -/
theorem processBatch_fetch_failure_witness :
    processBatch allFetchFail ("0xaaa" :: ["0xbbb"]) =
      (⟨"0xaaa", 0⟩ :: (processBatch allFetchFail ["0xbbb"]).1,
       ⟨"0xaaa", "Failed to fetch data"⟩ :: (processBatch allFetchFail ["0xbbb"]).2) :=
  processBatch_fetch_failure allFetchFail "0xaaa" ["0xbbb"] rfl

end WalletRiskScoring
